import Mathlib

set_option maxHeartbeats 1000000

/-!
Verification development for the SEC HTML parser core
(`edgar/files/html.py`): a shallow embedding of the data model and the
operations of the parser, with theorems about its documented behavior.
Machine floats are modelled as exact rationals; Python `round` is
round-half-to-even and Python `int()` truncates toward zero.
-/

/-- Computable floor of a rational (equal to `Int.floor`, see `ratFloor_eq`). -/
def ratFloor (q : ℚ) : ℤ := q.num / q.den

/-- Python `round()` on an exact rational: round half to even. -/
def pyRound (q : ℚ) : ℤ :=
  if q - ratFloor q < 1/2 then ratFloor q
  else if (1:ℚ)/2 < q - ratFloor q then ratFloor q + 1
  else if ratFloor q % 2 = 0 then ratFloor q else ratFloor q + 1

/-- Python `int()` on a real number: truncation toward zero. -/
def pyTrunc (q : ℚ) : ℤ :=
  if q < 0 then -⌊-q⌋ else ⌊q⌋

/-- The `UnitType` literal of the source: 'pt' | 'px' | 'in' | 'cm' | 'mm' | '%'. -/
inductive WUnit
  | pt
  | px
  | inch
  | cm
  | mm
  | pct
  deriving DecidableEq, Repr

/-- `Width`: a width value with its unit. -/
structure Width where
  value : ℚ
  unit : WUnit
  deriving DecidableEq, Repr

/-- `Width._to_inches`: convert any unit to inches (conversion table of the source:
in=1, pt=1/72, px=1/96, cm=0.393701, mm=0.0393701, '%'=1.0). -/
def Width.toInches (w : Width) : ℚ :=
  w.value * (match w.unit with
    | .inch => 1
    | .pt => 1/72
    | .px => 1/96
    | .cm => 393701/1000000
    | .mm => 393701/10000000
    | .pct => 1)

/-- `Width.to_chars`: convert width to character count given a console width.
Base conversion: 12.3 chars per inch at an 80-column baseline, scaled by
`console_width / 80`; percentage widths return `round(console_width * value/100)`
directly; non-percentage results are clamped by `min` to the console width. -/
def Width.to_chars (w : Width) (console_width : ℤ) : ℤ :=
  let scale : ℚ := (console_width : ℚ) / 80
  let inches : ℚ := w.toInches
  let chars : ℤ := pyRound (inches * (123/10) * scale)
  if w.unit = .pct then pyRound ((console_width : ℚ) * (w.value / 100))
  else min chars console_width

/-- `StyleInfo`: optional cascading style properties (all default `None`). -/
structure StyleInfo where
  display : Option String := none
  margin_top : Option ℚ := none
  margin_bottom : Option ℚ := none
  font_size : Option ℚ := none
  font_weight : Option String := none
  text_align : Option String := none
  line_height : Option ℚ := none
  width : Option Width := none
  text_decoration : Option String := none
  deriving DecidableEq, Repr

/-- The per-field update of `StyleInfo.merge`: keep the child's value when it
is not `None`, else the parent's (`if self.f is not None: merged.f = self.f`). -/
def childOverride {α : Type} (child parent : Option α) : Option α :=
  match child with
  | some v => some v
  | none => parent

/-- `StyleInfo.merge`: merge this style with the parent style; child properties
take precedence; a `None` parent returns the child unchanged. -/
def StyleInfo.merge (self : StyleInfo) (parent_style : Option StyleInfo) : StyleInfo :=
  match parent_style with
  | none => self
  | some p =>
    { display := childOverride self.display p.display
      margin_top := childOverride self.margin_top p.margin_top
      margin_bottom := childOverride self.margin_bottom p.margin_bottom
      font_size := childOverride self.font_size p.font_size
      font_weight := childOverride self.font_weight p.font_weight
      text_align := childOverride self.text_align p.text_align
      line_height := childOverride self.line_height p.line_height
      width := childOverride self.width p.width
      text_decoration := childOverride self.text_decoration p.text_decoration }

/-- Python truthiness of an optional string (`None` and `''` are falsy). -/
def strTruthy : Option String → Bool
  | some s => s ≠ ""
  | none => false

/-- Python truthiness of an optional number (`None` and `0.0` are falsy). -/
def ratTruthy : Option ℚ → Bool
  | some q => q ≠ 0
  | none => false

/-- Python `x or y` on optional strings. -/
def pyOrStr (x y : Option String) : Option String :=
  if strTruthy x then x else y

/-- Python `x or y` on optional numbers. -/
def pyOrRat (x y : Option ℚ) : Option ℚ :=
  if ratTruthy x then x else y

/-- `_to_pixels` (inner helper of `_merge_adjacent_nodes`): convert a width to
pixels for comparison, via px=1, pt=1.333, in=96, cm=37.795, mm=3.7795, '%'=1. -/
def toPixels (w : Width) : ℚ :=
  w.value * (match w.unit with
    | .px => 1
    | .pt => 1333/1000
    | .inch => 96
    | .cm => 37795/1000
    | .mm => 37795/10000
    | .pct => 1)

/-- The width-resolution step of `merge_styles`: with both widths present,
differing units are compared on the pixel scale and equal units on raw values;
a width below 30% of the other loses, otherwise the second width is taken. -/
def mergeWidths (w1 w2 : Width) : Width :=
  if w1.unit ≠ w2.unit then
    if toPixels w1 < toPixels w2 * (3/10) then w2
    else if toPixels w2 < toPixels w1 * (3/10) then w1
    else w2
  else
    if w1.value < w2.value * (3/10) then w2
    else if w2.value < w1.value * (3/10) then w1
    else w2

/-- `merge_styles` (inner helper of `_merge_adjacent_nodes`): merge the styles
of two adjacent text blocks; returns `None` (no merge possible) when the two
`text_align` values differ. -/
def mergeStyles (style1 style2 : StyleInfo) : Option StyleInfo :=
  if style1.text_align ≠ style2.text_align then none
  else some
    { display := pyOrStr style2.display style1.display
      margin_top := style1.margin_top
      margin_bottom := style2.margin_bottom
      font_size :=
        if ratTruthy style2.font_size ∧ style2.font_size ≠ style1.font_size then
          style2.font_size
        else style1.font_size
      font_weight :=
        if strTruthy style2.font_weight ∧ style2.font_weight ≠ style1.font_weight then
          style2.font_weight
        else style1.font_weight
      text_align := style1.text_align
      line_height := pyOrRat style2.line_height style1.line_height
      width :=
        match style1.width, style2.width with
        | some w1, some w2 => some (mergeWidths w1 w2)
        | some w1, none => some w1
        | none, some w2 => some w2
        | none, none => none
      text_decoration := pyOrStr style2.text_decoration style1.text_decoration }

/-- `TableCell`: one table cell of the reconstructed table. -/
structure TableCell where
  content : String
  colspan : ℤ := 1
  rowspan : ℤ := 1
  align : String := "left"
  is_currency : Bool := false
  deriving DecidableEq, Repr

/-- `TableRow`: an ordered list of cells plus the header flag. -/
structure TableRow where
  cells : List TableCell
  is_header : Bool := false
  deriving DecidableEq, Repr

/-- `TableRow.virtual_columns`: sum of the cell colspans. -/
def TableRow.virtual_columns (r : TableRow) : ℤ :=
  (r.cells.map TableCell.colspan).sum

/-- Document nodes (`HeadingNode` / `TextBlockNode` / `TableNode` of the source,
as one sum type); metadata is the node's metadata dict as a key-value list. -/
inductive BNode
  | heading (content : String) (style : StyleInfo) (level : ℤ)
      (metadata : List (String × String))
  | textBlock (content : String) (style : StyleInfo)
      (metadata : List (String × String))
  | table (content : List TableRow) (style : StyleInfo)
      (metadata : List (String × String))
  deriving DecidableEq, Repr

/-- The metadata dict of a node. -/
def BNode.metadata : BNode → List (String × String)
  | .heading _ _ _ m => m
  | .textBlock _ _ m => m
  | .table _ _ m => m

/-- `node.type` of the source, as a string. -/
def BNode.nodeType : BNode → String
  | .heading _ _ _ _ => "heading"
  | .textBlock _ _ _ => "text_block"
  | .table _ _ _ => "table"

/-- The style of a node. -/
def BNode.style : BNode → StyleInfo
  | .heading _ s _ _ => s
  | .textBlock _ s _ => s
  | .table _ s _ => s

/-- `can_merge_nodes` (inner helper of `_merge_adjacent_nodes`): both nodes are
text blocks, neither carries metadata, and their styles merge. -/
def can_merge_nodes (node1 node2 : BNode) : Bool :=
  match node1, node2 with
  | .textBlock _ s1 m1, .textBlock _ s2 m2 =>
    m1 = [] ∧ m2 = [] ∧ (mergeStyles s1 s2).isSome
  | _, _ => false

/-- The text content of a node (`node.content` for the textual variants). -/
def BNode.textContent : BNode → String
  | .heading c _ _ _ => c
  | .textBlock c _ _ => c
  | .table _ _ _ => ""

/-- The merge step of `_merge_adjacent_nodes`: the combined text block, with
content `first + "\n\n" + second` and the merged style (built by
`create_node('text_block', ...)`, hence with empty metadata). -/
def mergedNode (node1 node2 : BNode) : BNode :=
  .textBlock (node1.textContent ++ "\n\n" ++ node2.textContent)
    ((mergeStyles node1.style node2.style).getD node1.style) []

/-- The forward loop of `_merge_adjacent_nodes`, with `current` the running
candidate node. -/
def mergeLoop (current : BNode) : List BNode → List BNode
  | [] => [current]
  | node :: rest =>
    if can_merge_nodes current node then mergeLoop (mergedNode current node) rest
    else current :: mergeLoop node rest

/-- `_merge_adjacent_nodes`: coalesce adjacent compatible text-block nodes. -/
def merge_adjacent_nodes (nodes : List BNode) : List BNode :=
  match nodes with
  | [] => []
  | first :: rest => mergeLoop first rest

/-- Lowercase ASCII letter test (the `[a-z]` class of the source's regex). -/
def isLowerAZ (c : Char) : Bool := 'a' ≤ c && c ≤ 'z'

/-- Python `str.strip()` on a char list. -/
def trimL (l : List Char) : List Char :=
  ((l.dropWhile Char.isWhitespace).reverse.dropWhile Char.isWhitespace).reverse

/-- Python `str.lower()` on a char list (ASCII range). -/
def toLowerL (l : List Char) : List Char := l.map Char.toLower

/-- Numeric value of a run of ASCII digits. -/
def digitsVal (l : List Char) : ℕ := l.foldl (fun a c => 10 * a + (c.toNat - 48)) 0

/-- The rational denoted by an optional sign, integer digits and fraction
digits (the value Python `float()` assigns to the matched number text). -/
def decimalVal (neg : Bool) (ds1 ds2 : List Char) : ℚ :=
  let n : ℤ := digitsVal ds1 * 10 ^ ds2.length + digitsVal ds2
  Rat.divInt (if neg then -n else n) (10 ^ ds2.length)

/-- The digits-then-optional-dot-then-digits part of the regex
`(-?\d*\.?\d+)`, after the optional sign has been consumed: the value of
the greedily matched number and the unconsumed remainder; `none` when the
regex does not match. -/
def matchAfterSign (neg : Bool) (l1 : List Char) : Option (ℚ × List Char) :=
  let ds1 := l1.takeWhile Char.isDigit
  let r1 := l1.dropWhile Char.isDigit
  match r1 with
  | c :: r2 =>
    if c = '.' then
      let ds2 := r2.takeWhile Char.isDigit
      let r3 := r2.dropWhile Char.isDigit
      if ds2 ≠ [] then some (decimalVal neg ds1 ds2, r3)
      else if ds1 ≠ [] then some (decimalVal neg ds1 [], r1)
      else none
    else if ds1 ≠ [] then some (decimalVal neg ds1 [], r1) else none
  | [] => if ds1 ≠ [] then some (decimalVal neg ds1 [], r1) else none

/-- `re.match(r'(-?\d*\.?\d+)([a-z]*)', value)`, number part: the leading
signed decimal the regex captures, with the unconsumed remainder; `none` when
the regex does not match. -/
def matchNumber (l : List Char) : Option (ℚ × List Char) :=
  match l with
  | c :: t => if c = '-' then matchAfterSign true t else matchAfterSign false (c :: t)
  | [] => matchAfterSign false []

/-- The digit part of a Python `float()` literal, after sign and surrounding
whitespace handling: digits with at most one dot and at least one digit,
consuming the whole remainder. -/
def pyFloatAfterSign (neg : Bool) (l1 : List Char) : Option ℚ :=
  let ds1 := l1.takeWhile Char.isDigit
  let r1 := l1.dropWhile Char.isDigit
  match r1 with
  | c :: r2 =>
    if c = '.' then
      let ds2 := r2.takeWhile Char.isDigit
      let r3 := r2.dropWhile Char.isDigit
      if r3 = [] ∧ (ds1 ≠ [] ∨ ds2 ≠ []) then some (decimalVal neg ds1 ds2) else none
    else none
  | [] => if ds1 ≠ [] then some (decimalVal neg ds1 []) else none

/-- Python `float()` on a plain decimal literal (optional sign, digits with at
most one dot, at least one digit, optional surrounding whitespace; other float
syntaxes such as exponents are not used by the parser's inputs and yield
`none`). -/
def pyFloatList (l : List Char) : Option ℚ :=
  match trimL l with
  | c :: r =>
    if c = '-' then pyFloatAfterSign true r
    else if c = '+' then pyFloatAfterSign false r
    else pyFloatAfterSign false (c :: r)
  | [] => pyFloatAfterSign false []

/-- The `chars_per_unit` table of `_parse_unit`: in=12.3, pt=12.3/72,
px=12.3/96, cm=4.84, mm=0.484, em=1.6, rem=1.6, with default 1.0. -/
def chars_per_unit (u : List Char) : ℚ :=
  if u = "in".data then 123/10
  else if u = "pt".data then 123/720
  else if u = "px".data then 123/960
  else if u = "cm".data then 121/25
  else if u = "mm".data then 121/250
  else if u = "em".data then 8/5
  else if u = "rem".data then 8/5
  else 1

/-- `SECHTMLParser._parse_unit`: percent values become a 0-1 fraction;
otherwise the regex-extracted number is scaled by the per-unit multiplier and
truncated by Python `int()`; unparsable input yields `none`. -/
def parse_unit (value : String) : Option ℚ :=
  let l := value.data
  if l = [] then none
  else if l.getLast? = some '%' then
    (pyFloatList l.dropLast).map (fun v => v / 100)
  else
    match matchNumber l with
    | none => none
    | some (v, rest) =>
      let u := rest.takeWhile isLowerAZ
      some ((pyTrunc (v * chars_per_unit u) : ℤ) : ℚ)

/-- `SECHTMLParser._parse_width`: parse a CSS width value into a `Width`;
a trailing `%` yields a percent width, otherwise the regex-extracted number
plus unit (empty unit defaults to px, unknown units yield `none`). -/
def parse_width (value : String) : Option Width :=
  let l := value.data
  if l = [] then none
  else if l.getLast? = some '%' then
    match pyFloatList l.dropLast with
    | some v => some ⟨v, .pct⟩
    | none => none
  else
    match matchNumber l with
    | none => none
    | some (v, rest) =>
      let u := rest.takeWhile isLowerAZ
      if u = "in".data then some ⟨v, .inch⟩
      else if u = "pt".data then some ⟨v, .pt⟩
      else if u = "px".data then some ⟨v, .px⟩
      else if u = "cm".data then some ⟨v, .cm⟩
      else if u = "mm".data then some ⟨v, .mm⟩
      else if u = [] then some ⟨v, .px⟩
      else none

/-- Python `str.split(sep)` for a one-character separator (keeps empty parts). -/
def splitCharL (sep : Char) : List Char → List (List Char)
  | [] => [[]]
  | c :: rest =>
    if c = sep then [] :: splitCharL sep rest
    else match splitCharL sep rest with
      | [] => [[c]]
      | g :: gs => (c :: g) :: gs

/-- Python `prop.split(':', 1)` combined with the `':' in prop` test: the text
before the first colon and the text after it, or `none` when there is none. -/
def splitFirstColon : List Char → Option (List Char × List Char)
  | [] => none
  | c :: rest =>
    if c = ':' then some ([], rest)
    else match splitFirstColon rest with
      | none => none
      | some kv => some (c :: kv.1, kv.2)

/-- One iteration of the property loop of `parse_style`: dispatch one
`key:value` pair onto the style (unrecognized keys are ignored). -/
def applyProp (style : StyleInfo) (prop : List Char) : StyleInfo :=
  match splitFirstColon prop with
  | none => style
  | some kv =>
    let key := String.mk (toLowerL (trimL kv.1))
    let value := String.mk (toLowerL (trimL kv.2))
    if key = "width" then
      match parse_width value with
      | some w => { style with width := some w }
      | none => style
    else if key = "display" then { style with display := some value }
    else if key = "margin-top" then { style with margin_top := parse_unit value }
    else if key = "margin-bottom" then { style with margin_bottom := parse_unit value }
    else if key = "font-size" then { style with font_size := parse_unit value }
    else if key = "font-weight" then { style with font_weight := some value }
    else if key = "text-align" then { style with text_align := some value }
    else if key = "line-height" then { style with line_height := parse_unit value }
    else if key = "text-decoration" then { style with text_decoration := some value }
    else style

/-- `SECHTMLParser.parse_style`: parse an inline CSS style string into a
`StyleInfo` (split on `;`, strip, dispatch each `key:value` pair). -/
def parse_style (style_str : String) : StyleInfo :=
  if style_str = "" then {}
  else
    let props := ((splitCharL ';' style_str.data).map trimL).filter (fun p => p ≠ [])
    props.foldl applyProp {}

/-- Python `pat in s` substring test on char lists. -/
def listContainsSub (pat : List Char) : List Char → Bool
  | [] => pat.isEmpty
  | c :: rest => pat.isPrefixOf (c :: rest) || listContainsSub pat rest

mutual
/-- One node of the normalized markup tree handed to the parser: a text node
(`NavigableString`) or an element (`Tag` with tag name, attributes, children). -/
inductive HNode
  | text (s : String)
  | elem (tag : String) (attrs : List (String × String)) (children : HList)
/-- The ordered children of an element. -/
inductive HList
  | nil
  | cons (head : HNode) (tail : HList)
end

/-- bs4 `element.get(key)`: first attribute with the given key. -/
def HNode.attr : HNode → String → Option String
  | .text _, _ => none
  | .elem _ attrs _, k => (attrs.find? (fun p => p.1 = k)).map Prod.snd

/-- The inline style attribute with default `''` (`element.get('style', '')`). -/
def HNode.styleAttr (e : HNode) : String := (e.attr "style").getD ""

/-- The tag name of an element (`''` for text nodes, which have no name). -/
def HNode.tagName : HNode → String
  | .text _ => ""
  | .elem t _ _ => t

mutual
/-- bs4 `get_text()`: concatenation of all descendant strings. -/
def getTextAll : HNode → String
  | .text s => s
  | .elem _ _ cs => getTextAllL cs
def getTextAllL : HList → String
  | .nil => ""
  | .cons c cs => getTextAll c ++ getTextAllL cs
end

mutual
/-- bs4 `get_text(strip=True)`: concatenation of the stripped descendant
strings. -/
def getTextStrip : HNode → String
  | .text s => String.mk (trimL s.data)
  | .elem _ _ cs => getTextStripL cs
def getTextStripL : HList → String
  | .nil => ""
  | .cons c cs => getTextStrip c ++ getTextStripL cs
end

mutual
/-- bs4 `element.find(...)`/`find_all(...)` emptiness: does some strict
descendant element have a tag satisfying `p`? -/
def hasDescElem (p : String → Bool) : HNode → Bool
  | .text _ => false
  | .elem _ _ cs => hasDescElemL p cs
def hasDescElemL (p : String → Bool) : HList → Bool
  | .nil => false
  | .cons c cs =>
    (match c with
      | .elem t _ _ => p t
      | .text _ => false) || hasDescElem p c || hasDescElemL p cs
end

/-- The `has_table` marking of phase 1 of `_process_element`, expressed as the
non-mutating equivalent the marking computes: the element has a table element
somewhere strictly below it. -/
def hasTableBelow (e : HNode) : Bool := hasDescElem (fun t => t = "table") e

mutual
/-- bs4 `find_all(p)` over all descendants, in document (pre-)order. -/
def findDescTagged (p : String → Bool) : HNode → List HNode
  | .text _ => []
  | .elem _ _ cs => findDescTaggedL p cs
def findDescTaggedL (p : String → Bool) : HList → List HNode
  | .nil => []
  | .cons c cs =>
    (match c with
      | .elem t _ _ =>
        (if p t then [c] else []) ++ findDescTagged p c
      | .text _ => []) ++ findDescTaggedL p cs
end

mutual
/-- Cell text after the `br.replace_with('\n')` pass: descendant text with
every `br` element contributing a line break. -/
def getTextBr : HNode → String
  | .text s => s
  | .elem t _ cs => if t = "br" then "\n" else getTextBrL cs
def getTextBrL : HList → String
  | .nil => ""
  | .cons c cs => getTextBr c ++ getTextBrL cs
end

/-- One left-to-right scan of Python `str.replace` (replace all occurrences,
no overlap), with recursion fuel; the fuel is the input length, which bounds
the number of steps. -/
def replaceAux (pat repl : List Char) : ℕ → List Char → List Char
  | _, [] => []
  | 0, l => l
  | fuel + 1, c :: rest =>
    if pat ≠ [] ∧ pat.isPrefixOf (c :: rest) then
      repl ++ replaceAux pat repl fuel (List.drop (pat.length - 1) rest)
    else c :: replaceAux pat repl fuel rest

/-- Python `s.replace(pat, repl)` on char lists. -/
def replaceSub (pat repl l : List Char) : List Char := replaceAux pat repl l.length l

/-- The ordered named-entity replacement table of `replace_html_entities`. -/
def entityReplacements : List (List Char × List Char) :=
  [("&horbar;".data, "-----".data), ("&mdash;".data, "-----".data),
   ("&ndash;".data, "---".data), ("&minus;".data, "-".data),
   ("&hyphen;".data, "-".data), ("&dash;".data, "-".data),
   ("&nbsp;".data, " ".data), ("&amp;".data, "&".data),
   ("&lt;".data, "<".data), ("&gt;".data, ">".data),
   ("&quot;".data, "\"".data), ("&apos;".data, [Char.ofNat 39]),
   ("&#8202;".data, " ".data), ("&#8203;".data, []),
   ("&#x2014;".data, "-----".data), ("&#x2013;".data, "---".data),
   ("&#x2212;".data, "-".data)]

/-- The dash-codepoint replacement loop of `replace_html_entities`: each code
in decimal `&#nnnn;` form and in hexadecimal `&#xhhhh;` form. -/
def dashCodepointReplacements : List (List Char × List Char) :=
  [("&#8208;".data, "-".data), ("&#x2010;".data, "-".data),
   ("&#8209;".data, "-".data), ("&#x2011;".data, "-".data),
   ("&#8210;".data, "-".data), ("&#x2012;".data, "-".data),
   ("&#8211;".data, "---".data), ("&#x2013;".data, "---".data),
   ("&#8212;".data, "-----".data), ("&#x2014;".data, "-----".data),
   ("&#8213;".data, "-----".data), ("&#x2015;".data, "-----".data),
   ("&#8722;".data, "-".data), ("&#x2212;".data, "-".data)]

/-- `replace_html_entities` of `_process_table`: substitute the fixed entity
table, then the dash codepoints, in order. -/
def replace_html_entities (text : String) : String :=
  String.mk ((entityReplacements ++ dashCodepointReplacements).foldl
    (fun l pr => replaceSub pr.1 pr.2 l) text.data)

/-- The direct children of an element that are `div` elements
(`find_all('div', recursive=False)`). -/
def directDivs : HNode → List HNode
  | .text _ => []
  | .elem _ _ cs => directDivsL cs
where
  directDivsL : HList → List HNode
  | .nil => []
  | .cons c cs =>
    (match c with
      | .elem t _ _ => if t = "div" then [c] else []
      | .text _ => []) ++ directDivsL cs

/-- Python `s.startswith(pre)`. -/
def strStartsWith (s pre : String) : Bool := pre.data.isPrefixOf s.data

/-- `extract_cell_text` of `_process_table`: with direct `div` children, the
entity-cleaned stripped text of each div joined by line breaks; otherwise the
cell text with `br` as line breaks, entity-cleaned and stripped. -/
def extract_cell_text (cell : HNode) : String :=
  match directDivs cell with
  | [] => String.mk (trimL (replace_html_entities (getTextBr cell)).data)
  | d :: ds =>
    String.intercalate "\n"
      ((d :: ds).map (fun dv => replace_html_entities (getTextStrip dv)))

/-- Python `int()` on a string: optional sign and decimal digits (surrounding
whitespace allowed); `none` models the raised `ValueError`. -/
def pyIntStr (s : String) : Option ℤ :=
  let t := trimL s.data
  let p := match t with
    | '-' :: r => (true, r)
    | '+' :: r => (false, r)
    | _ => (false, t)
  if p.2 ≠ [] ∧ p.2.all Char.isDigit then
    some (if p.1 then -(digitsVal p.2 : ℤ) else (digitsVal p.2 : ℤ))
  else none

/-- The parsed colspan attribute of a cell: `int(cell.get('colspan', '1'))`. -/
def cellColspan (cell : HNode) : Option ℤ := pyIntStr ((cell.attr "colspan").getD "1")

/-- `process_cell` of `_process_table`: a right-aligned cell with colspan > 1
is split into colspan-1 empty right-aligned cells plus one right-aligned cell
holding the text; otherwise one cell with the stated colspan, the resolved
alignment (default left) and the currency flag; `error` models the
`ValueError` of `int()` on a malformed colspan attribute. -/
def process_cell (cell : HNode) : Except Unit (List TableCell) :=
  match cellColspan cell with
  | none => .error ()
  | some colspan =>
    let style := parse_style cell.styleAttr
    let text := extract_cell_text cell
    if style.text_align = some "right" ∧ 1 < colspan then
      .ok (List.replicate (colspan - 1).toNat
          { content := "", colspan := 1, align := "right", is_currency := false } ++
        [{ content := text, colspan := 1, align := "right", is_currency := false }])
    else
      .ok [{ content := text, colspan := colspan,
             align := style.text_align.getD "left",
             is_currency := strStartsWith text "$" }]

/-- The cell loop of `process_row`: concatenate the cells of the row's
`td`/`th` elements, propagating a raised error. -/
def collectCells : List HNode → Except Unit (List TableCell)
  | [] => .ok []
  | c :: cs =>
    match process_cell c with
    | .error e => .error e
    | .ok cells =>
      match collectCells cs with
      | .error e => .error e
      | .ok rest => .ok (cells ++ rest)

/-- `process_row` of `_process_table`: the cells of all `td`/`th` descendants
in document order; the header flag is supplied by the caller's traversal
(`find_parent('thead')` within the processed table). -/
def process_row (row : HNode) (is_header : Bool) : Except Unit TableRow :=
  match collectCells (findDescTagged (fun t => t = "td" || t = "th") row) with
  | .error e => .error e
  | .ok cells => .ok { cells := cells, is_header := is_header }

mutual
/-- All `tr` descendants in document order, each paired with whether a `thead`
element lies on the path from the processed table down to it (the
`find_parent('thead')` test; `thead` ancestors above the processed table
element are outside the modelled subtree). -/
def findTrs (flag : Bool) : HNode → List (HNode × Bool)
  | .text _ => []
  | .elem t _ cs => findTrsL (flag || t = "thead") cs
def findTrsL (flag : Bool) : HList → List (HNode × Bool)
  | .nil => []
  | .cons c cs =>
    (match c with
      | .elem t _ _ => (if t = "tr" then [(c, flag)] else []) ++ findTrs flag c
      | .text _ => []) ++ findTrsL flag cs
end

/-- The row loop of `_process_table`: process each `tr`, keeping rows with at
least one cell. -/
def collectRows : List (HNode × Bool) → Except Unit (List TableRow)
  | [] => .ok []
  | (tr, hdr) :: rest =>
    match process_row tr hdr with
    | .error e => .error e
    | .ok row =>
      match collectRows rest with
      | .error e => .error e
      | .ok rows => .ok (if row.cells ≠ [] then row :: rows else rows)

/-- The metadata dict built for a successful table: the `id` attribute, the
class attribute (a token list in bs4, carried here as the raw attribute), and
all `data-` attributes. -/
def tableMetadata (attrs : List (String × String)) : List (String × String) :=
  [("id", ((attrs.find? (fun p => p.1 = "id")).map Prod.snd).getD ""),
   ("class", ((attrs.find? (fun p => p.1 = "class")).map Prod.snd).getD "")] ++
  attrs.filter (fun p => strStartsWith p.1 "data-")

/-- `SECHTMLParser._process_table`: reconstruct a table element into a table
node; a table with no non-empty rows produces no node. -/
def process_table (element : HNode) : Except Unit (Option BNode) :=
  match element with
  | .text _ => .ok none
  | .elem _ attrs _ =>
    match collectRows (findTrs false element) with
    | .error e => .error e
    | .ok rows =>
      if rows ≠ [] then
        .ok (some (.table rows (parse_style element.styleAttr) (tableMetadata attrs)))
      else .ok none

/-- The parser's base font size (`self.base_font_size = 10.0`, set in the
constructor and never overridden). -/
def base_font_size : ℚ := 10

/-- The whitespace-split worker of Python `str.split()` (no separator):
split on whitespace runs, dropping empty words. -/
def splitWsAux : List Char → List Char → List (List Char)
  | [], acc => if acc = [] then [] else [acc.reverse]
  | c :: rest, acc =>
    if c.isWhitespace then
      if acc = [] then splitWsAux rest []
      else acc.reverse :: splitWsAux rest []
    else splitWsAux rest (c :: acc)

/-- Python `text.split()`: the whitespace-separated words of a string. -/
def pySplit (s : String) : List (List Char) := splitWsAux s.data []

/-- `SECHTMLParser._looks_like_header`: the heading heuristic for a div.
Divs containing a span, or with empty stripped text, are never headings;
otherwise six hints are computed and the div is a heading iff it is bold
(hint 1) and at least four of the six hints hold. -/
def looks_like_header (element : HNode) (style : StyleInfo) : Bool :=
  if hasDescElem (fun t => t = "span") element then false
  else
    let text := getTextStrip element
    if text = "" then false
    else
      let hints : List Bool :=
        [(match style.font_weight with
          | some w => w ≠ "" && (w = "bold" || w = "700" || w = "800" || w = "900")
          | none => false),
         (match style.margin_top with
          | some m => m ≠ 0 && decide (18 < m)
          | none => false),
         decide ((pySplit text).length ≤ 8),
         ! hasDescElem (fun t => t = "table") element,
         ! hasDescElem (fun t =>
             t = "h1" || t = "h2" || t = "h3" || t = "h4" || t = "h5" || t = "h6" || t = "p")
           element,
         (match style.font_size with
          | some fs => fs ≠ 0 && decide (12/10 * base_font_size ≤ fs)
          | none => false)]
      decide (4 ≤ hints.count true) && hints.headD false

/-- The fixed block-element tag set of `_is_block_element`. -/
def blockElements : List String :=
  ["div", "p", "h1", "h2", "h3", "h4", "h5", "h6",
   "ul", "ol", "li", "blockquote", "pre", "hr",
   "table", "form", "fieldset", "address"]

/-- `SECHTMLParser._is_block_element`: an explicit (truthy) display value
decides blockness; otherwise membership in the block tag set, overridden to
inline by a `float:left` occurrence in the style attribute. -/
def is_block_element (element : HNode) : Bool :=
  let style := parse_style element.styleAttr
  let tagCheck :=
    blockElements.contains element.tagName &&
      ! listContainsSub "float:left".data element.styleAttr.data
  match style.display with
  | some d => if d ≠ "" then d ≠ "inline" else tagCheck
  | none => tagCheck

/-- Does a string end with a space (`texts[-1].endswith(' ')`)? -/
def endsWithSpace (s : String) : Bool := s.data.getLast? = some ' '

/-- Does a string start with a space (`child_text.startswith(' ')`)? -/
def startsWithSpace (s : String) : Bool := s.data.head? = some ' '

/-- Python `str.isspace()`: non-empty and all whitespace. -/
def isSpaceStr (s : String) : Bool := s.data ≠ [] && s.data.all Char.isWhitespace

mutual
/-- `SECHTMLParser._get_text_with_spacing`: extract text while preserving
meaningful whitespace; tables contribute nothing. -/
def getTextWithSpacing : HNode → String
  | .text s => s
  | .elem t _ cs => if t = "table" then "" else gtwsLoop cs [] false

/-- The child loop of `_get_text_with_spacing`, carrying the collected texts
and the `last_was_text` flag; returns `''.join(texts)`. -/
def gtwsLoop : HList → List String → Bool → String
  | .nil, texts, _ => String.join texts
  | .cons c cs, texts, last =>
    match c with
    | .text s =>
      let t := String.mk (trimL s.data)
      if t ≠ "" then gtwsLoop cs (texts ++ [t]) true
      else if isSpaceStr s ∧ last then gtwsLoop cs (texts ++ [" "]) last
      else gtwsLoop cs texts last
    | .elem t _ _ =>
      if t = "br" then gtwsLoop cs (texts ++ ["\n"]) false
      else if t = "table" then gtwsLoop cs texts last
      else
        let child_text := getTextWithSpacing c
        if String.mk (trimL child_text.data) ≠ "" then
          let texts1 :=
            if texts ≠ [] ∧ last ∧ ¬ endsWithSpace (texts.getLastD "") ∧
                ¬ startsWithSpace child_text then
              texts ++ [" "]
            else texts
          gtwsLoop cs (texts1 ++ [String.mk (trimL child_text.data)]) true
        else gtwsLoop cs texts last
end

/-- The child loop of `_process_paragraph`, collecting the text parts and the
`last_was_text` flag. -/
def paraParts : HList → List String → Bool → List String
  | .nil, parts, _ => parts
  | .cons c cs, parts, last =>
    match c with
    | .text s =>
      if String.mk (trimL s.data) ≠ "" then paraParts cs (parts ++ [s]) true
      else if isSpaceStr s ∧ last then paraParts cs (parts ++ [" "]) last
      else paraParts cs parts last
    | .elem t _ _ =>
      if t = "br" then paraParts cs (parts ++ ["\n"]) false
      else if t = "span" ∨ t = "font" ∨ t = "strong" ∨ t = "em" ∨ t = "b" ∨
          t = "i" ∨ t = "a" then
        let tx := String.mk (trimL (getTextWithSpacing c).data)
        if tx ≠ "" then paraParts cs (parts ++ [tx]) true
        else paraParts cs parts last
      else paraParts cs parts last

/-- The final text normalization of `_process_paragraph`: join the parts,
collapse whitespace within each line, drop empty lines, rejoin with `\n`. -/
def normalizeParagraphText (parts : List String) : String :=
  let text := String.join parts
  let lines := (splitCharL '\n' text.data).map
    (fun l => String.intercalate " " ((splitWsAux l []).map String.mk))
  String.intercalate "\n" (lines.filter (fun l => l ≠ ""))

/-- `SECHTMLParser._process_paragraph`: assemble a paragraph element into a
text-block node (or nothing when no text remains). -/
def process_paragraph (element : HNode) (style : StyleInfo) : Option BNode :=
  match element with
  | .text _ => none
  | .elem _ _ cs =>
    match paraParts cs [] false with
    | [] => none
    | p :: ps =>
      let text := normalizeParagraphText (p :: ps)
      if String.mk (trimL text.data) ≠ "" then some (.textBlock text style []) else none

/-- `flush_text` of the traversal loops: join the pending parts with spaces,
strip, and emit one text block when non-empty. -/
def flushText (parts : List String) (style : StyleInfo) : List BNode :=
  match parts with
  | [] => []
  | _ =>
    let text := String.mk (trimL (String.intercalate " " parts).data)
    if text ≠ "" then [.textBlock text style []] else []

mutual
/-- `SECHTMLParser._process_inline_content`: content-combining mode for
elements without tables. -/
def process_inline_content (element : HNode) (style : StyleInfo) : List BNode :=
  match element with
  | .text _ => []
  | .elem _ _ cs => inlineLoop cs style [] []

/-- The child loop of `_process_inline_content`, carrying the emitted nodes
and the pending text parts; ends with a final flush (after which the
`text_parts`-only return branch of the source is unreachable, the flush
having cleared the parts). -/
def inlineLoop : HList → StyleInfo → List BNode → List String → List BNode
  | .nil, style, nodes, parts => nodes ++ flushText parts style
  | .cons c cs, style, nodes, parts =>
    match c with
    | .text s =>
      let t := String.mk (trimL s.data)
      if t ≠ "" ∧ t ≠ String.mk [Char.ofNat 8203] then
        inlineLoop cs style nodes (parts ++ [t])
      else inlineLoop cs style nodes parts
    | .elem t _ _ =>
      if t = "br" then inlineLoop cs style nodes (parts ++ ["\n"])
      else if t = "p" then
        let nodes1 := nodes ++ flushText parts style
        let para_style := (parse_style c.styleAttr).merge (some style)
        match process_paragraph c para_style with
        | some n => inlineLoop cs style (nodes1 ++ [n]) []
        | none => inlineLoop cs style nodes1 []
      else if t = "font" then
        let tx := String.mk (trimL (getTextWithSpacing c).data)
        if tx ≠ "" then inlineLoop cs style nodes (parts ++ [tx])
        else inlineLoop cs style nodes parts
      else if t = "div" then
        if (parse_style c.styleAttr).display = some "float:left" then
          let bullet := String.mk (trimL (getTextAll c).data)
          if bullet ≠ "" then inlineLoop cs style nodes (parts ++ [bullet ++ " "])
          else inlineLoop cs style nodes parts
        else if listContainsSub "clear:both".data c.styleAttr.data then
          if parts ≠ [] ∧ parts.getLast? ≠ some "\n" then
            inlineLoop cs style nodes (parts ++ ["\n"])
          else inlineLoop cs style nodes parts
        else
          match process_inline_content c style with
          | [] => inlineLoop cs style nodes parts
          | i :: irest =>
            inlineLoop cs style ((nodes ++ flushText parts style) ++ (i :: irest)) []
      else if ! is_block_element c then
        let tx := String.mk (trimL (getTextWithSpacing c).data)
        if tx ≠ "" then inlineLoop cs style nodes (parts ++ [tx])
        else inlineLoop cs style nodes parts
      else inlineLoop cs style nodes parts
end

/-- `int(element.name[1])` for the `h1`..`h6` dispatch branch. -/
def headingLevel (tag : String) : ℤ :=
  if tag = "h1" then 1 else if tag = "h2" then 2 else if tag = "h3" then 3
  else if tag = "h4" then 4 else if tag = "h5" then 5 else 6

mutual
/-- `SECHTMLParser._process_element`: process one element into nodes, with the
style cascade stack threaded explicitly (head = top of `self.style_stack`).
The current style is parsed, merged with the stack top, and pushed; the pair's
second component is the stack handed back to the caller, with the frame popped
on every exit path (the `finally` block) — also when a raised error (`.error`,
from `int()` on a malformed colspan) propagates. -/
def process_element : HNode → List StyleInfo →
    Except Unit (List BNode) × List StyleInfo
  | .text _, st => (.ok [], st)
  | .elem tag attrs cs, st =>
    let current := (parse_style (HNode.elem tag attrs cs).styleAttr).merge st.head?
    let st1 := current :: st
    let r :=
      if strStartsWith tag "ix:" then ixLoop cs current st1
      else if tag = "table" then
        (match process_table (.elem tag attrs cs) with
         | .error e => (.error e, st1)
         | .ok (some n) => (.ok [n], st1)
         | .ok none => (.ok [], st1))
      else if tag = "h1" ∨ tag = "h2" ∨ tag = "h3" ∨ tag = "h4" ∨ tag = "h5" ∨
          tag = "h6" then
        (.ok [.heading (getTextStrip (.elem tag attrs cs)) current (headingLevel tag) []],
         st1)
      else if tag = "p" then
        (match process_paragraph (.elem tag attrs cs) current with
         | some n => (.ok [n], st1)
         | none => (.ok [], st1))
      else if tag = "div" then
        if hasTableBelow (.elem tag attrs cs) then structuredLoop cs current st1 []
        else (.ok (process_inline_content (.elem tag attrs cs) current), st1)
      else childLoop cs st1
    (r.1, r.2.tail)
termination_by e st => sizeOf e

/-- The child loop of the `ix:` branch of `_process_element`: tables,
paragraphs and divs are special-cased (divs via structure-preserving
processing of their children under their own merged style), all other
elements recurse. -/
def ixLoop : HList → StyleInfo → List StyleInfo →
    Except Unit (List BNode) × List StyleInfo
  | .nil, _, st => (.ok [], st)
  | .cons (.text _) cs, current, st => ixLoop cs current st
  | .cons (.elem t ta tcs) cs, current, st =>
    if t = "table" then
      match process_table (.elem t ta tcs) with
      | .error e => (.error e, st)
      | .ok r =>
        match ixLoop cs current st with
        | (.error e2, st2) => (.error e2, st2)
        | (.ok ns, st2) => (.ok (r.toList ++ ns), st2)
    else if t = "p" then
      let pr := process_paragraph (.elem t ta tcs) current
      match ixLoop cs current st with
      | (.error e2, st2) => (.error e2, st2)
      | (.ok ns, st2) => (.ok (pr.toList ++ ns), st2)
    else if t = "div" then
      let div_style := (parse_style (HNode.elem t ta tcs).styleAttr).merge (some current)
      match structuredLoop tcs div_style st [] with
      | (.error e, st2) => (.error e, st2)
      | (.ok dns, st2) =>
        match ixLoop cs current st2 with
        | (.error e2, st3) => (.error e2, st3)
        | (.ok ns, st3) => (.ok (dns ++ ns), st3)
    else
      match process_element (.elem t ta tcs) st with
      | (.error e, st2) => (.error e, st2)
      | (.ok ens, st2) =>
        match ixLoop cs current st2 with
        | (.error e2, st3) => (.error e2, st3)
        | (.ok ns, st3) => (.ok (ens ++ ns), st3)
termination_by cs current st => sizeOf cs

/-- The child loop of `_process_structured_content` (structure-preserving
mode): buffer plain text, flush at each table or table-bearing child, and
recurse into table-bearing children via `_process_element`. -/
def structuredLoop : HList → StyleInfo → List StyleInfo → List String →
    Except Unit (List BNode) × List StyleInfo
  | .nil, style, st, parts => (.ok (flushText parts style), st)
  | .cons (.text s) cs, style, st, parts =>
    let t := String.mk (trimL s.data)
    if t ≠ "" then structuredLoop cs style st (parts ++ [t])
    else structuredLoop cs style st parts
  | .cons (.elem t ta tcs) cs, style, st, parts =>
    if t = "table" then
      match process_table (.elem t ta tcs) with
      | .error e => (.error e, st)
      | .ok r =>
        match structuredLoop cs style st [] with
        | (.error e2, st2) => (.error e2, st2)
        | (.ok ns, st2) => (.ok (flushText parts style ++ r.toList ++ ns), st2)
    else if hasTableBelow (.elem t ta tcs) then
      match process_element (.elem t ta tcs) st with
      | (.error e, st2) => (.error e, st2)
      | (.ok ens, st2) =>
        match structuredLoop cs style st2 [] with
        | (.error e2, st3) => (.error e2, st3)
        | (.ok ns, st3) => (.ok (flushText parts style ++ ens ++ ns), st3)
    else
      let tx := String.mk (trimL (getTextWithSpacing (.elem t ta tcs)).data)
      if tx ≠ "" then structuredLoop cs style st (parts ++ [tx])
      else structuredLoop cs style st parts
termination_by cs style st parts => sizeOf cs

/-- The default child loop of `_process_element`: recurse into each element
child, collecting and flattening the returned nodes. -/
def childLoop : HList → List StyleInfo → Except Unit (List BNode) × List StyleInfo
  | .nil, st => (.ok [], st)
  | .cons (.text _) cs, st => childLoop cs st
  | .cons (.elem t ta tcs) cs, st =>
    match process_element (.elem t ta tcs) st with
    | (.error e, st2) => (.error e, st2)
    | (.ok ens, st2) =>
      match childLoop cs st2 with
      | (.error e2, st3) => (.error e2, st3)
      | (.ok ns, st3) => (.ok (ens ++ ns), st3)
termination_by cs st => sizeOf cs
end

/-- The bold signal of the heading heuristic, as the spec words it:
font-weight is one of bold, 700, 800, 900. -/
def boldSignal (style : StyleInfo) : Bool :=
  style.font_weight = some "bold" || style.font_weight = some "700" ||
  style.font_weight = some "800" || style.font_weight = some "900"

/-- The six heading signals as the spec words them: bold weight; margin-top
greater than 18; text of at most 8 words; no nested table; no nested heading
or paragraph tag; font-size at least 1.2 times the base font size. -/
def headingSignals (element : HNode) (style : StyleInfo) : List Bool :=
  [boldSignal style,
   (match style.margin_top with
    | some m => decide (18 < m)
    | none => false),
   decide ((pySplit (getTextStrip element)).length ≤ 8),
   ! hasDescElem (fun t => t = "table") element,
   ! hasDescElem (fun t =>
       t = "h1" || t = "h2" || t = "h3" || t = "h4" || t = "h5" || t = "h6" || t = "p")
     element,
   (match style.font_size with
    | some fs => decide (12/10 * base_font_size ≤ fs)
    | none => false)]

/-- A well-formed decimal literal as a char list: optional minus sign, integer
digits, and an optional dot followed by fraction digits. -/
def decChars (neg : Bool) (ds1 ds2 : List Char) : List Char :=
  (if neg then ['-'] else []) ++ ds1 ++ (if ds2 = [] then [] else '.' :: ds2)

/-- A five-word bold div, margin-top 20, font-size 13 = 1.3 x base: the
concrete heading-heuristic element of the spec's test property. -/
def exHeadElem : HNode :=
  .elem "div" [] (.cons (.text "Quarterly Report On Financial Results") .nil)

/-- The style of `exHeadElem`: bold, margin-top 20, font-size 13. -/
def exHeadStyle : StyleInfo :=
  { font_weight := some "bold", margin_top := some 20, font_size := some 13 }

/-- A right-aligned cell with colspan 3 and text 99%. -/
def exSplitCell : HNode :=
  .elem "td" [("colspan", "3"), ("style", "text-align:right")]
    (.cons (.text "99%") .nil)

/-- A plain cell whose text begins with a dollar sign. -/
def exPlainCell : HNode := .elem "td" [] (.cons (.text "$77") .nil)

/-- A right-aligned colspan-2 cell whose text begins with a dollar sign. -/
def exCurrencyCell : HNode :=
  .elem "td" [("colspan", "2"), ("style", "text-align:right")]
    (.cons (.text "$100") .nil)

/-- A div whose first child is a `float:left`-styled bullet div with text `*`,
followed by the text `Item one`. -/
def exBulletContainer : HNode :=
  .elem "div" []
    (.cons (.elem "div" [("style", "float:left")] (.cons (.text "*") .nil))
      (.cons (.text "Item one") .nil))

theorem ratFloor_eq (q : ℚ) : ratFloor q = ⌊q⌋ := by
  rw [Rat.floor_def]; rfl

theorem pyRound_eq_floor_form (q : ℚ) : pyRound q =
    if q - ⌊q⌋ < 1/2 then ⌊q⌋
    else if (1:ℚ)/2 < q - ⌊q⌋ then ⌊q⌋ + 1
    else if ⌊q⌋ % 2 = 0 then ⌊q⌋ else ⌊q⌋ + 1 := by
  unfold pyRound
  rw [ratFloor_eq]

theorem pyRound_ge_floor (q : ℚ) : ⌊q⌋ ≤ pyRound q := by
  rw [pyRound_eq_floor_form]
  split_ifs <;> omega

theorem pyRound_le_floor_add_one (q : ℚ) : pyRound q ≤ ⌊q⌋ + 1 := by
  rw [pyRound_eq_floor_form]
  split_ifs <;> omega

theorem pyRound_mono {a b : ℚ} (h : a ≤ b) : pyRound a ≤ pyRound b := by
  have hfab : ⌊a⌋ ≤ ⌊b⌋ := Int.floor_le_floor h
  rcases eq_or_lt_of_le hfab with heq | hlt
  · have hcast : ((⌊a⌋ : ℤ) : ℚ) = ((⌊b⌋ : ℤ) : ℚ) := by exact_mod_cast heq
    have hxy : a - (⌊a⌋ : ℚ) ≤ b - (⌊b⌋ : ℚ) := by linarith
    rw [pyRound_eq_floor_form, pyRound_eq_floor_form]
    split_ifs <;> first | omega | (exfalso; linarith)
  · have h1 : pyRound a ≤ ⌊a⌋ + 1 := pyRound_le_floor_add_one a
    have h2 : (⌊b⌋ : ℤ) ≤ pyRound b := pyRound_ge_floor b
    omega

mutual
theorem processElementStackAux : ∀ (e : HNode) (st : List StyleInfo),
    (process_element e st).2 = st
  | .text _, st => by simp [process_element]
  | .elem tag attrs cs, st => by
    have hix := ixLoopStackAux cs
    have hst := structuredLoopStackAux cs
    have hch := childLoopStackAux cs
    simp only [process_element]
    split_ifs with h1 h2 h3 h4 h5
    · simp [hix]
    · rcases process_table (.elem tag attrs cs) with e | r
      · rfl
      · rcases r with _ | n <;> rfl
    · rfl
    · rcases process_paragraph (.elem tag attrs cs) _ with _ | n <;> rfl
    · simp [hst]
    · rfl
    · simp [hch]
termination_by e st => sizeOf e

theorem ixLoopStackAux : ∀ (cs : HList) (current : StyleInfo) (st : List StyleInfo),
    (ixLoop cs current st).2 = st
  | .nil, current, st => by simp [ixLoop]
  | .cons (.text s) cs, current, st => by
    simpa [ixLoop] using ixLoopStackAux cs current st
  | .cons (.elem t ta tcs) cs, current, st => by
    simp only [ixLoop]
    split_ifs with h1 h2 h3
    · rcases process_table (.elem t ta tcs) with e | r
      · rfl
      · rcases hI : ixLoop cs current st with ⟨r2, st2⟩
        have h := ixLoopStackAux cs current st
        rw [hI] at h
        rcases r2 with e2 | ns <;> simpa using h
    · rcases hI : ixLoop cs current st with ⟨r2, st2⟩
      have h := ixLoopStackAux cs current st
      rw [hI] at h
      rcases r2 with e2 | ns <;> simpa using h
    · rcases hS : structuredLoop tcs
          ((parse_style (HNode.elem t ta tcs).styleAttr).merge (some current)) st [] with
        ⟨r2, st2⟩
      have h := structuredLoopStackAux tcs
        ((parse_style (HNode.elem t ta tcs).styleAttr).merge (some current)) st []
      rw [hS] at h
      rcases r2 with e2 | dns
      · simpa using h
      · rcases hI : ixLoop cs current st2 with ⟨r3, st3⟩
        have h2 := ixLoopStackAux cs current st2
        rw [hI] at h2
        rcases r3 with e3 | ns <;> simp_all
    · rcases hP : process_element (.elem t ta tcs) st with ⟨r2, st2⟩
      have h := processElementStackAux (.elem t ta tcs) st
      rw [hP] at h
      rcases r2 with e2 | ens
      · simpa using h
      · rcases hI : ixLoop cs current st2 with ⟨r3, st3⟩
        have h2 := ixLoopStackAux cs current st2
        rw [hI] at h2
        rcases r3 with e3 | ns <;> simp_all
termination_by cs current st => sizeOf cs

theorem structuredLoopStackAux : ∀ (cs : HList) (style : StyleInfo)
    (st : List StyleInfo) (parts : List String),
    (structuredLoop cs style st parts).2 = st
  | .nil, style, st, parts => by simp [structuredLoop]
  | .cons (.text s) cs, style, st, parts => by
    simp only [structuredLoop]
    split_ifs <;> exact structuredLoopStackAux cs style st _
  | .cons (.elem t ta tcs) cs, style, st, parts => by
    simp only [structuredLoop]
    split_ifs with h1 h2 h3
    · rcases process_table (.elem t ta tcs) with e | r
      · rfl
      · rcases hS : structuredLoop cs style st [] with ⟨r2, st2⟩
        have h := structuredLoopStackAux cs style st []
        rw [hS] at h
        rcases r2 with e2 | ns <;> simpa using h
    · rcases hP : process_element (.elem t ta tcs) st with ⟨r2, st2⟩
      have h := processElementStackAux (.elem t ta tcs) st
      rw [hP] at h
      rcases r2 with e2 | ens
      · simpa using h
      · rcases hS : structuredLoop cs style st2 [] with ⟨r3, st3⟩
        have h2 := structuredLoopStackAux cs style st2 []
        rw [hS] at h2
        rcases r3 with e3 | ns <;> simp_all
    · exact structuredLoopStackAux cs style st _
    · exact structuredLoopStackAux cs style st _
termination_by cs style st parts => sizeOf cs

theorem childLoopStackAux : ∀ (cs : HList) (st : List StyleInfo),
    (childLoop cs st).2 = st
  | .nil, st => by simp [childLoop]
  | .cons (.text _) cs, st => by simpa [childLoop] using childLoopStackAux cs st
  | .cons (.elem t ta tcs) cs, st => by
    simp only [childLoop]
    rcases hP : process_element (.elem t ta tcs) st with ⟨r2, st2⟩
    have h := processElementStackAux (.elem t ta tcs) st
    rw [hP] at h
    rcases r2 with e2 | ens
    · simpa using h
    · rcases hC : childLoop cs st2 with ⟨r3, st3⟩
      have h2 := childLoopStackAux cs st2
      rw [hC] at h2
      rcases r3 with e3 | ns <;> simp_all
termination_by cs st => sizeOf cs
end

theorem childOverride_self {α : Type} (x : Option α) : childOverride x x = x := by
  cases x <;> rfl

/-- C4: `StyleInfo.merge` returns the child unchanged on a `None` parent, is
idempotent when merging a style with itself as parent, and, independently for
each of the nine properties, takes the child's value when the child sets the
property and the parent's value when only the parent sets it. -/
theorem style_merge_cascade :
    ∀ s : StyleInfo, s.merge none = s ∧ s.merge (some s) = s ∧
    ∀ p : StyleInfo,
      ((∀ v, s.display = some v → (s.merge (some p)).display = some v) ∧
       (s.display = none → (s.merge (some p)).display = p.display)) ∧
      ((∀ v, s.margin_top = some v → (s.merge (some p)).margin_top = some v) ∧
       (s.margin_top = none → (s.merge (some p)).margin_top = p.margin_top)) ∧
      ((∀ v, s.margin_bottom = some v → (s.merge (some p)).margin_bottom = some v) ∧
       (s.margin_bottom = none → (s.merge (some p)).margin_bottom = p.margin_bottom)) ∧
      ((∀ v, s.font_size = some v → (s.merge (some p)).font_size = some v) ∧
       (s.font_size = none → (s.merge (some p)).font_size = p.font_size)) ∧
      ((∀ v, s.font_weight = some v → (s.merge (some p)).font_weight = some v) ∧
       (s.font_weight = none → (s.merge (some p)).font_weight = p.font_weight)) ∧
      ((∀ v, s.text_align = some v → (s.merge (some p)).text_align = some v) ∧
       (s.text_align = none → (s.merge (some p)).text_align = p.text_align)) ∧
      ((∀ v, s.line_height = some v → (s.merge (some p)).line_height = some v) ∧
       (s.line_height = none → (s.merge (some p)).line_height = p.line_height)) ∧
      ((∀ v, s.width = some v → (s.merge (some p)).width = some v) ∧
       (s.width = none → (s.merge (some p)).width = p.width)) ∧
      ((∀ v, s.text_decoration = some v → (s.merge (some p)).text_decoration = some v) ∧
       (s.text_decoration = none → (s.merge (some p)).text_decoration = p.text_decoration)) := by
  intro s
  refine ⟨rfl, ?_, ?_⟩
  · cases s
    simp only [StyleInfo.merge, childOverride_self]
  · intro p
    refine ⟨⟨?_, ?_⟩, ⟨?_, ?_⟩, ⟨?_, ?_⟩, ⟨?_, ?_⟩, ⟨?_, ?_⟩, ⟨?_, ?_⟩, ⟨?_, ?_⟩,
      ⟨?_, ?_⟩, ⟨?_, ?_⟩⟩ <;>
      first
        | (intro v hv
           simp [StyleInfo.merge, hv, childOverride])
        | (intro hv
           simp [StyleInfo.merge, hv, childOverride])

theorem style_merge_cascade_witness :
    (({ display := some "block" } : StyleInfo).merge
      (some ({ display := some "inline", margin_top := some 5 } : StyleInfo))).display =
        some "block" ∧
    (({ display := some "block" } : StyleInfo).merge
      (some ({ display := some "inline", margin_top := some 5 } : StyleInfo))).margin_top =
        some 5 :=
  ⟨((style_merge_cascade _).2.2 _).1.1 "block" rfl,
   ((style_merge_cascade _).2.2 _).2.1.2 rfl⟩

/-- C10: `_process_element` pushes one style frame on entry and pops it on
every exit path, the raised-error path included, so the style stack handed
back to the caller is identical to the one it was given. -/
theorem process_element_stack_preserved :
    ∀ (e : HNode) (st : List StyleInfo), (process_element e st).2 = st :=
  processElementStackAux

/-- C9 (evaluating the code at the failing input): a child div carrying the
inline style `float:left` is not recognized by the bullet-marker branch of
`_process_inline_content` — the branch compares the parsed `display` property
with the text `float:left`, and `parse_style` leaves `display` unset for this
style — so the child is recursed into as a regular div and emitted as its own
text block instead of being buffered with a trailing space. -/
theorem float_left_div_processed_as_regular :
    (parse_style "float:left").display = none ∧
    process_inline_content exBulletContainer {} =
      [.textBlock "*" {} [], .textBlock "Item one" {} []] :=
  ⟨by decide, rfl⟩

/-- C2: a right-aligned cell with colspan N > 1 and text T yields N cells,
the first N-1 empty and right-aligned, the last holding T right-aligned, each
with colspan 1; a cell with colspan 1 yields exactly one cell regardless of
alignment. -/
theorem process_cell_colspan_split :
    (∀ (cell : HNode) (N : ℤ),
      cellColspan cell = some N →
      (parse_style cell.styleAttr).text_align = some "right" →
      1 < N →
      process_cell cell = .ok (List.replicate (N - 1).toNat ⟨"", 1, 1, "right", false⟩ ++
        [⟨extract_cell_text cell, 1, 1, "right", false⟩])) ∧
    (∀ cell : HNode,
      cellColspan cell = some 1 →
      process_cell cell = .ok
        [⟨extract_cell_text cell, 1, 1, (parse_style cell.styleAttr).text_align.getD "left",
          strStartsWith (extract_cell_text cell) "$"⟩]) := by
  constructor
  · intro cell N hN ha hlt
    simp [process_cell, hN, ha, hlt]
  · intro cell h1
    simp [process_cell, h1]

theorem process_cell_colspan_split_witness :
    process_cell exSplitCell = .ok (List.replicate ((3:ℤ) - 1).toNat ⟨"", 1, 1, "right", false⟩ ++
      [⟨extract_cell_text exSplitCell, 1, 1, "right", false⟩]) ∧
    process_cell exPlainCell = .ok
      [⟨extract_cell_text exPlainCell, 1, 1,
        (parse_style exPlainCell.styleAttr).text_align.getD "left",
        strStartsWith (extract_cell_text exPlainCell) "$"⟩] :=
  ⟨process_cell_colspan_split.1 exSplitCell 3 (by decide) (by decide) (by decide),
   process_cell_colspan_split.2 exPlainCell (by decide)⟩

/-- C6 counterexample: the right-aligned colspan-2 cell with text `$100`
produces a final cell whose content begins with a dollar sign but whose
currency flag is false, refuting the claimed equivalence for the cells of the
splitting branch. -/
theorem process_cell_currency_counterexample :
    process_cell exCurrencyCell = .ok
      [⟨"", 1, 1, "right", false⟩, ⟨"$100", 1, 1, "right", false⟩] ∧
    strStartsWith "$100" "$" = true :=
  ⟨rfl, rfl⟩

/-- C6 amended: the currency flag equals "content begins with `$`" for the
single cell of the non-splitting branch; every cell emitted by the
right-aligned colspan>1 splitting branch carries a false currency flag. -/
theorem process_cell_currency_flag :
    (∀ (cell : HNode) (N : ℤ) (cells : List TableCell),
      cellColspan cell = some N →
      (parse_style cell.styleAttr).text_align = some "right" → 1 < N →
      process_cell cell = .ok cells →
      ∀ c ∈ cells, c.is_currency = false) ∧
    (∀ (cell : HNode) (N : ℤ),
      cellColspan cell = some N →
      ¬ ((parse_style cell.styleAttr).text_align = some "right" ∧ 1 < N) →
      process_cell cell = .ok
        [⟨extract_cell_text cell, N, 1, (parse_style cell.styleAttr).text_align.getD "left",
          strStartsWith (extract_cell_text cell) "$"⟩]) := by
  constructor
  · intro cell N cells hN ha hlt hok c hc
    simp [process_cell, hN, ha, hlt] at hok
    rw [← hok] at hc
    rcases List.mem_append.mp hc with h | h
    · have hcc := List.eq_of_mem_replicate h
      rw [hcc]
    · simp at h
      rw [h]
  · intro cell N hN hcond
    simp only [process_cell, hN]
    rw [if_neg hcond]

theorem process_cell_currency_flag_witness :
    (⟨"$100", 1, 1, "right", false⟩ : TableCell).is_currency = false ∧
    process_cell exPlainCell = .ok
      [⟨extract_cell_text exPlainCell, 1, 1,
        (parse_style exPlainCell.styleAttr).text_align.getD "left",
        strStartsWith (extract_cell_text exPlainCell) "$"⟩] :=
  ⟨process_cell_currency_flag.1 exCurrencyCell 2 _ (by decide) (by decide) (by decide)
      rfl _ (by decide),
   process_cell_currency_flag.2 exPlainCell 1 (by decide) (by decide)⟩

/-- C3: in the adjacent-node merge pass, two consecutive metadata-free text
blocks with equal text-align are replaced by one text block whose content is
the first content, a blank line, then the second content (the loop continuing
over the remaining nodes with the merged node as the running candidate);
with differing text-align the two nodes stay separate. -/
theorem merge_adjacent_text_align :
    ∀ (c1 c2 : String) (s1 s2 : StyleInfo) (rest : List BNode),
      (s1.text_align = s2.text_align →
        ∃ m, mergeStyles s1 s2 = some m ∧
          merge_adjacent_nodes (BNode.textBlock c1 s1 [] :: BNode.textBlock c2 s2 [] :: rest) =
            mergeLoop (.textBlock (c1 ++ "\n\n" ++ c2) m []) rest ∧
          merge_adjacent_nodes [BNode.textBlock c1 s1 [], BNode.textBlock c2 s2 []] =
            [.textBlock (c1 ++ "\n\n" ++ c2) m []]) ∧
      (s1.text_align ≠ s2.text_align →
        merge_adjacent_nodes (BNode.textBlock c1 s1 [] :: BNode.textBlock c2 s2 [] :: rest) =
          BNode.textBlock c1 s1 [] ::
            merge_adjacent_nodes (BNode.textBlock c2 s2 [] :: rest) ∧
        merge_adjacent_nodes [BNode.textBlock c1 s1 [], BNode.textBlock c2 s2 []] =
          [BNode.textBlock c1 s1 [], BNode.textBlock c2 s2 []]) := by
  intro c1 c2 s1 s2 rest
  constructor
  · intro h
    have hm : (mergeStyles s1 s2).isSome := by simp [mergeStyles, h]
    obtain ⟨m, hm2⟩ := Option.isSome_iff_exists.mp hm
    refine ⟨m, hm2, ?_, ?_⟩
    · simp [merge_adjacent_nodes, mergeLoop, can_merge_nodes, hm2, mergedNode,
        BNode.textContent, BNode.style]
    · simp [merge_adjacent_nodes, mergeLoop, can_merge_nodes, hm2, mergedNode,
        BNode.textContent, BNode.style]
  · intro h
    have hm : mergeStyles s1 s2 = none := by simp [mergeStyles, h]
    constructor <;>
      simp [merge_adjacent_nodes, mergeLoop, can_merge_nodes, hm]

theorem merge_adjacent_text_align_witness :
    (∃ m, mergeStyles {} {} = some m ∧
      merge_adjacent_nodes (BNode.textBlock "A" {} [] :: BNode.textBlock "B" {} [] :: []) =
        mergeLoop (.textBlock ("A" ++ "\n\n" ++ "B") m []) [] ∧
      merge_adjacent_nodes [BNode.textBlock "A" {} [], BNode.textBlock "B" {} []] =
        [.textBlock ("A" ++ "\n\n" ++ "B") m []]) ∧
    merge_adjacent_nodes [BNode.textBlock "A" {} [],
        BNode.textBlock "B" { text_align := some "right" } []] =
      [BNode.textBlock "A" {} [], BNode.textBlock "B" { text_align := some "right" } []] :=
  ⟨(merge_adjacent_text_align "A" "B" {} {} []).1 rfl,
   ((merge_adjacent_text_align "A" "B" {} { text_align := some "right" } []).2
     (by decide)).2⟩

/-- C5 counterexample: a 200% width at console width 80 converts to 160
characters, exceeding the console width — the percent branch of `to_chars`
returns before the `min` clamp is applied. -/
theorem to_chars_percent_exceeds_console :
    Width.to_chars ⟨200, .pct⟩ 80 = 160 ∧ ¬ Width.to_chars ⟨200, .pct⟩ 80 ≤ 80 := by
  have h : Width.to_chars ⟨200, .pct⟩ 80 = 160 := by
    norm_num [Width.to_chars, pyRound_eq_floor_form]
  refine ⟨h, by rw [h]; norm_num⟩

/-- C5 amended: `to_chars` is non-decreasing in the width value for a fixed
unit and positive console width; non-percent results never exceed the console
width; percent widths convert as `round(console_width * value/100)` and are
not clamped. -/
theorem to_chars_monotone_and_clamped :
    (∀ (u : WUnit) (W : ℤ) (v1 v2 : ℚ), 0 < W → v1 ≤ v2 →
      Width.to_chars ⟨v1, u⟩ W ≤ Width.to_chars ⟨v2, u⟩ W) ∧
    (∀ (v : ℚ) (u : WUnit) (W : ℤ), u ≠ .pct → Width.to_chars ⟨v, u⟩ W ≤ W) ∧
    (∀ (v : ℚ) (W : ℤ),
      Width.to_chars ⟨v, .pct⟩ W = pyRound ((W : ℚ) * (v / 100))) := by
  refine ⟨?_, ?_, ?_⟩
  · intro u W v1 v2 hW h12
    have hW0 : (0:ℚ) ≤ (W:ℚ) := by exact_mod_cast hW.le
    by_cases hu : u = .pct
    · subst hu
      simp only [Width.to_chars, ite_true]
      apply pyRound_mono
      have h100 : v1 / 100 ≤ v2 / 100 := by linarith
      exact mul_le_mul_of_nonneg_left h100 hW0
    · simp only [Width.to_chars]
      rw [if_neg hu, if_neg hu]
      apply min_le_min _ le_rfl
      apply pyRound_mono
      have hsc : (0:ℚ) ≤ (W:ℚ)/80 := by positivity
      have hin : Width.toInches ⟨v1, u⟩ ≤ Width.toInches ⟨v2, u⟩ := by
        cases u <;>
          simp only [Width.toInches] <;>
          exact mul_le_mul_of_nonneg_right h12 (by norm_num)
      exact mul_le_mul_of_nonneg_right
        (mul_le_mul_of_nonneg_right hin (by norm_num)) hsc
  · intro v u W hu
    simp only [Width.to_chars]
    rw [if_neg hu]
    exact min_le_right _ _
  · intro v W
    simp [Width.to_chars]

theorem to_chars_monotone_and_clamped_witness :
    Width.to_chars ⟨1, .inch⟩ 80 ≤ Width.to_chars ⟨2, .inch⟩ 80 ∧
    Width.to_chars ⟨30, .cm⟩ 80 ≤ 80 ∧
    Width.to_chars ⟨200, .pct⟩ 80 = pyRound ((80 : ℚ) * (200 / 100)) :=
  ⟨to_chars_monotone_and_clamped.1 .inch 80 1 2 (by decide) (by decide),
   to_chars_monotone_and_clamped.2.1 30 .cm 80 (by decide),
   to_chars_monotone_and_clamped.2.2 200 80⟩

theorem toPixels_lt_iff (v1 v2 : ℚ) (u : WUnit) :
    (toPixels ⟨v1, u⟩ < toPixels ⟨v2, u⟩ * (3/10)) ↔ (v1 < v2 * (3/10)) := by
  cases u <;>
    · simp only [toPixels]
      constructor <;> intro h <;> linarith

theorem mergeStyles_eq_of_align (s1 s2 : StyleInfo)
    (ha : s1.text_align = s2.text_align) :
    mergeStyles s1 s2 = some
      { display := pyOrStr s2.display s1.display
        margin_top := s1.margin_top
        margin_bottom := s2.margin_bottom
        font_size :=
          if ratTruthy s2.font_size ∧ s2.font_size ≠ s1.font_size then s2.font_size
          else s1.font_size
        font_weight :=
          if strTruthy s2.font_weight ∧ s2.font_weight ≠ s1.font_weight then
            s2.font_weight
          else s1.font_weight
        text_align := s1.text_align
        line_height := pyOrRat s2.line_height s1.line_height
        width :=
          match s1.width, s2.width with
          | some w1, some w2 => some (mergeWidths w1 w2)
          | some w1, none => some w1
          | none, some w2 => some w2
          | none, none => none
        text_decoration := pyOrStr s2.text_decoration s1.text_decoration } := by
  unfold mergeStyles
  rw [if_neg (by simp [ha])]

/-- C7 counterexample: widths 100px then 50px are within 30% of each other on
the pixel scale, yet `merge_styles` keeps the second node's 50px width rather
than the larger 100px one, refuting "the merged width is the larger of the
two". -/
theorem merge_styles_width_counterexample :
    (mergeStyles { width := some ⟨100, .px⟩ } { width := some ⟨50, .px⟩ }).map
        StyleInfo.width = some (some ⟨50, .px⟩) ∧
    toPixels ⟨50, .px⟩ < toPixels ⟨100, .px⟩ ∧
    ¬ toPixels ⟨50, .px⟩ < toPixels ⟨100, .px⟩ * (3/10) := by
  refine ⟨?_, by norm_num [toPixels], by norm_num [toPixels]⟩
  rw [mergeStyles_eq_of_align { width := some ⟨100, .px⟩ } { width := some ⟨50, .px⟩ } rfl]
  norm_num [mergeWidths]

/-- C7 amended: when both merge-eligible styles carry a width, the comparison
is made on the pixel scale (px=1, pt=1.333, in=96, cm=37.795, mm=3.7795,
percent=1): a width below 30% of the other loses to the larger one, and
otherwise the second style's width is kept (which need not be the larger
one). -/
theorem merge_styles_width_resolution :
    ∀ (s1 s2 : StyleInfo) (w1 w2 : Width),
      s1.text_align = s2.text_align →
      s1.width = some w1 → s2.width = some w2 →
      ∃ m, mergeStyles s1 s2 = some m ∧
        ((toPixels w1 < toPixels w2 * (3/10) → m.width = some w2) ∧
         (¬ toPixels w1 < toPixels w2 * (3/10) →
           toPixels w2 < toPixels w1 * (3/10) → m.width = some w1) ∧
         (¬ toPixels w1 < toPixels w2 * (3/10) →
           ¬ toPixels w2 < toPixels w1 * (3/10) → m.width = some w2)) := by
  intro s1 s2 w1 w2 ha hw1 hw2
  refine ⟨_, mergeStyles_eq_of_align s1 s2 ha, ?_, ?_, ?_⟩
  · intro h1
    rcases w1 with ⟨v1, u1⟩
    rcases w2 with ⟨v2, u2⟩
    by_cases hu : u1 = u2
    · subst hu
      have hv := (toPixels_lt_iff v1 v2 u1).mp h1
      simp [hw1, hw2, mergeWidths, hv]
    · simp [hw1, hw2, mergeWidths, hu, h1]
  · intro h1 h2
    rcases w1 with ⟨v1, u1⟩
    rcases w2 with ⟨v2, u2⟩
    by_cases hu : u1 = u2
    · subst hu
      have hv1 : ¬ v1 < v2 * (3/10) := fun hc => h1 ((toPixels_lt_iff v1 v2 u1).mpr hc)
      have hv2 := (toPixels_lt_iff v2 v1 u1).mp h2
      simp [hw1, hw2, mergeWidths, hv1, hv2]
    · simp [hw1, hw2, mergeWidths, hu, h1, h2]
  · intro h1 h2
    rcases w1 with ⟨v1, u1⟩
    rcases w2 with ⟨v2, u2⟩
    by_cases hu : u1 = u2
    · subst hu
      have hv1 : ¬ v1 < v2 * (3/10) := fun hc => h1 ((toPixels_lt_iff v1 v2 u1).mpr hc)
      have hv2 : ¬ v2 < v1 * (3/10) := fun hc => h2 ((toPixels_lt_iff v2 v1 u1).mpr hc)
      simp [hw1, hw2, mergeWidths, hv1, hv2]
    · simp [hw1, hw2, mergeWidths, hu, h1, h2]

theorem merge_styles_width_resolution_witness :
    (mergeStyles { width := some ⟨10, .px⟩ } { width := some ⟨100, .px⟩ }).map
      StyleInfo.width = some (some ⟨100, .px⟩) := by
  obtain ⟨m, hm, h1, h2, h3⟩ :=
    merge_styles_width_resolution { width := some ⟨10, .px⟩ }
      { width := some ⟨100, .px⟩ } ⟨10, .px⟩ ⟨100, .px⟩ rfl rfl rfl
  rw [hm]
  simp [h1 (by norm_num [toPixels])]

theorem hint_bold_eq (s : StyleInfo) :
    (match s.font_weight with
     | some w => w ≠ "" && (w = "bold" || w = "700" || w = "800" || w = "900")
     | none => false) = boldSignal s := by
  cases h : s.font_weight with
  | none => simp [boldSignal, h]
  | some w =>
    simp only [boldSignal, h]
    by_cases h1 : w = "bold" <;> by_cases h2 : w = "700" <;>
      by_cases h3 : w = "800" <;> by_cases h4 : w = "900" <;>
      simp [h1, h2, h3, h4]

theorem hint_margin_eq (s : StyleInfo) :
    (match s.margin_top with
     | some m => m ≠ 0 && decide (18 < m)
     | none => false) =
    (match s.margin_top with
     | some m => decide (18 < m)
     | none => false) := by
  cases h : s.margin_top with
  | none => rfl
  | some m =>
    by_cases hm : m = 0
    · subst hm
      have h18 : ¬ ((18:ℚ) < 0) := by norm_num
      simp [h18]
    · simp [hm]

theorem hint_font_eq (s : StyleInfo) :
    (match s.font_size with
     | some fs => fs ≠ 0 && decide (12/10 * base_font_size ≤ fs)
     | none => false) =
    (match s.font_size with
     | some fs => decide (12/10 * base_font_size ≤ fs)
     | none => false) := by
  cases h : s.font_size with
  | none => rfl
  | some fs =>
    by_cases hf : fs = 0
    · subst hf
      have h12 : ¬ (12/10 * base_font_size ≤ (0:ℚ)) := by norm_num [base_font_size]
      simp [h12]
    · simp [hf]

/-- C1: for an element with non-empty stripped text and no nested span, the
heading heuristic holds iff the bold signal holds and at least 4 of the 6
signals are true; the concrete five-word bold element with margin-top 20 and
font-size 1.3 times the base satisfies it; and with no bold font-weight the
heuristic rejects every element regardless of the other signals. -/
theorem looks_like_header_characterization :
    (∀ (e : HNode) (s : StyleInfo), getTextStrip e ≠ "" →
      hasDescElem (fun t => t = "span") e = false →
      (looks_like_header e s = true ↔
        boldSignal s = true ∧ 4 ≤ (headingSignals e s).count true)) ∧
    looks_like_header exHeadElem exHeadStyle = true ∧
    (∀ (e : HNode) (s : StyleInfo), boldSignal s = false →
      looks_like_header e s = false) := by
  refine ⟨?_, ?_, ?_⟩
  · intro e s htext hspan
    unfold looks_like_header
    rw [if_neg (by simp [hspan]), if_neg htext]
    rw [hint_bold_eq, hint_margin_eq, hint_font_eq]
    simp only [headingSignals, List.headD_cons]
    constructor
    · intro hand
      obtain ⟨hc, hb⟩ := Bool.and_eq_true_iff.mp hand
      exact ⟨hb, of_decide_eq_true hc⟩
    · intro hand
      obtain ⟨hb, hc⟩ := hand
      exact Bool.and_eq_true_iff.mpr ⟨decide_eq_true hc, hb⟩
  · have h12 : (12/10 * base_font_size : ℚ) = 12 := by norm_num [base_font_size]
    simp only [looks_like_header, h12]
    decide
  · intro e s hb
    cases hfw : s.font_weight with
    | none => simp [looks_like_header, hfw]
    | some w =>
      simp only [boldSignal, hfw, Option.some.injEq, Bool.or_eq_false_iff,
        decide_eq_false_iff_not] at hb
      obtain ⟨⟨⟨h1, h2⟩, h3⟩, h4⟩ := hb
      simp [looks_like_header, hfw, h1, h2, h3, h4]

theorem looks_like_header_characterization_witness :
    (looks_like_header exHeadElem exHeadStyle = true ↔
      boldSignal exHeadStyle = true ∧
        4 ≤ (headingSignals exHeadElem exHeadStyle).count true) ∧
    looks_like_header exHeadElem { exHeadStyle with font_weight := none } = false :=
  ⟨looks_like_header_characterization.1 exHeadElem exHeadStyle (by decide) (by decide),
   looks_like_header_characterization.2.2 exHeadElem
     { exHeadStyle with font_weight := none } (by decide)⟩

theorem not_ws_of_digit {c : Char} (h : c.isDigit = true) : c.isWhitespace = false := by
  by_contra hw
  rw [Bool.not_eq_false] at hw
  simp only [Char.isWhitespace, Bool.or_eq_true, decide_eq_true_eq] at hw
  rcases hw with ((h1 | h1) | h1) | h1 <;> subst h1 <;> exact absurd h (by decide)

theorem takeWhile_digits_append (ds X : List Char) (hds : ∀ c ∈ ds, c.isDigit = true)
    (hX : ∀ c, X.head? = some c → c.isDigit = false) :
    (ds ++ X).takeWhile Char.isDigit = ds ∧ (ds ++ X).dropWhile Char.isDigit = X := by
  constructor
  · rw [List.takeWhile_append_of_pos hds]
    cases X with
    | nil => simp
    | cons x xs =>
      rw [List.takeWhile_cons_of_neg (by simp [hX x rfl])]
      simp
  · rw [List.dropWhile_append_of_pos hds]
    cases X with
    | nil => rfl
    | cons x xs => exact List.dropWhile_cons_of_neg (by simp [hX x rfl])

theorem dropWhile_ws_eq_self (l : List Char) (h : ∀ c ∈ l, c.isWhitespace = false) :
    l.dropWhile Char.isWhitespace = l := by
  cases l with
  | nil => rfl
  | cons c cs => exact List.dropWhile_cons_of_neg (by simp [h c (by simp)])

theorem trimL_eq_self (l : List Char) (h : ∀ c ∈ l, c.isWhitespace = false) :
    trimL l = l := by
  unfold trimL
  rw [dropWhile_ws_eq_self l h,
    dropWhile_ws_eq_self l.reverse (fun c hc => h c (List.mem_reverse.mp hc)),
    List.reverse_reverse]

theorem matchAfterSign_eval (neg : Bool) (ds1 ds2 rest : List Char)
    (h1 : ∀ c ∈ ds1, c.isDigit = true) (h2 : ∀ c ∈ ds2, c.isDigit = true)
    (h3 : ds2 = [] → ds1 ≠ [])
    (hrest : ∀ c, rest.head? = some c → c.isDigit = false ∧ ¬ c = '.') :
    matchAfterSign neg (ds1 ++ ((if ds2 = [] then [] else '.' :: ds2) ++ rest)) =
      some (decimalVal neg ds1 ds2, rest) := by
  cases hds2 : ds2 with
  | nil =>
    subst hds2
    have hshape : ds1 ++ ((if ([] : List Char) = [] then [] else '.' :: []) ++ rest) =
        ds1 ++ rest := by simp
    rw [hshape]
    obtain ⟨ht, hd⟩ := takeWhile_digits_append ds1 rest h1 (fun c hc => (hrest c hc).1)
    simp only [matchAfterSign, ht, hd]
    cases rest with
    | nil => rw [if_pos (h3 rfl)]
    | cons c t =>
      dsimp only
      rw [if_neg (hrest c rfl).2, if_pos (h3 rfl)]
  | cons d ds2x =>
    subst hds2
    rw [if_neg (by simp)]
    simp only [List.cons_append]
    obtain ⟨ht, hd⟩ := takeWhile_digits_append ds1 ('.' :: ((d :: ds2x) ++ rest)) h1
      (fun c hc => by
        simp only [List.head?_cons, Option.some.injEq] at hc
        subst hc
        decide)
    simp only [List.cons_append] at ht hd
    simp only [matchAfterSign, ht, hd]
    rw [if_pos trivial]
    obtain ⟨ht2, hd2⟩ := takeWhile_digits_append (d :: ds2x) rest h2
      (fun c hc => (hrest c hc).1)
    simp only [List.cons_append] at ht2 hd2
    simp only [ht2, hd2]
    rw [if_pos (by simp)]

theorem matchNumber_decChars (neg : Bool) (ds1 ds2 rest : List Char)
    (h1 : ∀ c ∈ ds1, c.isDigit = true) (h2 : ∀ c ∈ ds2, c.isDigit = true)
    (h3 : ds2 = [] → ds1 ≠ [])
    (hrest : ∀ c, rest.head? = some c → c.isDigit = false ∧ ¬ c = '.') :
    matchNumber (decChars neg ds1 ds2 ++ rest) = some (decimalVal neg ds1 ds2, rest) := by
  have key := matchAfterSign_eval neg ds1 ds2 rest h1 h2 h3 hrest
  cases neg with
  | true =>
    have hform : decChars true ds1 ds2 ++ rest =
        '-' :: (ds1 ++ ((if ds2 = [] then [] else '.' :: ds2) ++ rest)) := by
      simp [decChars]
    rw [hform]
    exact key
  | false =>
    cases hds1 : ds1 with
    | cons c cs =>
      subst hds1
      have hc : ¬ c = '-' := by
        intro hcc
        have hdg := h1 c (by simp)
        rw [hcc] at hdg
        exact absurd hdg (by decide)
      have hform : decChars false (c :: cs) ds2 ++ rest =
          c :: (cs ++ ((if ds2 = [] then [] else '.' :: ds2) ++ rest)) := by
        simp [decChars]
      rw [hform]
      dsimp only [matchNumber]
      rw [if_neg hc]
      simpa [List.cons_append] using key
    | nil =>
      subst hds1
      cases hds2 : ds2 with
      | nil => exact absurd hds2 (fun h => (h3 h) rfl)
      | cons d ds2x =>
        subst hds2
        have hform : decChars false [] (d :: ds2x) ++ rest =
            '.' :: ((d :: ds2x) ++ rest) := by
          simp [decChars]
        rw [hform]
        exact key

theorem pyFloatAfterSign_eval (neg : Bool) (ds1 ds2 : List Char)
    (h1 : ∀ c ∈ ds1, c.isDigit = true) (h2 : ∀ c ∈ ds2, c.isDigit = true)
    (h3 : ds2 = [] → ds1 ≠ []) :
    pyFloatAfterSign neg (ds1 ++ (if ds2 = [] then [] else '.' :: ds2)) =
      some (decimalVal neg ds1 ds2) := by
  cases hds2 : ds2 with
  | nil =>
    subst hds2
    have hshape : ds1 ++ (if ([] : List Char) = [] then [] else '.' :: []) = ds1 ++ [] := by
      simp
    rw [hshape]
    obtain ⟨ht, hd⟩ := takeWhile_digits_append ds1 [] h1 (by intro c hc; simp at hc)
    simp only [pyFloatAfterSign, ht, hd]
    rw [if_pos (h3 rfl)]
  | cons d ds2x =>
    subst hds2
    rw [if_neg (by simp)]
    obtain ⟨ht, hd⟩ := takeWhile_digits_append ds1 ('.' :: (d :: ds2x)) h1
      (fun c hc => by
        simp only [List.head?_cons, Option.some.injEq] at hc
        subst hc
        decide)
    simp only [pyFloatAfterSign, ht, hd]
    obtain ⟨ht2, hd2⟩ := takeWhile_digits_append (d :: ds2x) [] h2
      (by intro c hc; simp at hc)
    simp only [List.append_nil] at ht2 hd2
    simp only [ht2, hd2]
    simp

theorem pyFloatList_decChars (neg : Bool) (ds1 ds2 : List Char)
    (h1 : ∀ c ∈ ds1, c.isDigit = true) (h2 : ∀ c ∈ ds2, c.isDigit = true)
    (h3 : ds2 = [] → ds1 ≠ []) :
    pyFloatList (decChars neg ds1 ds2) = some (decimalVal neg ds1 ds2) := by
  have htrim : trimL (decChars neg ds1 ds2) = decChars neg ds1 ds2 := by
    apply trimL_eq_self
    intro c hc
    simp only [decChars, List.mem_append] at hc
    rcases hc with (hc | hc) | hc
    · cases neg with
      | true =>
        simp at hc
        subst hc
        decide
      | false =>
        simp at hc
    · exact not_ws_of_digit (h1 c hc)
    · by_cases hds2 : ds2 = []
      · rw [if_pos hds2] at hc
        simp at hc
      · rw [if_neg hds2] at hc
        rcases List.mem_cons.mp hc with hc | hc
        · subst hc
          decide
        · exact not_ws_of_digit (h2 c hc)
  have key := pyFloatAfterSign_eval neg ds1 ds2 h1 h2 h3
  cases neg with
  | true =>
    have hform : decChars true ds1 ds2 =
        '-' :: (ds1 ++ (if ds2 = [] then [] else '.' :: ds2)) := by
      simp [decChars]
    unfold pyFloatList
    rw [htrim, hform]
    exact key
  | false =>
    cases hds1 : ds1 with
    | cons c cs =>
      subst hds1
      have hcm : ¬ c = '-' := by
        intro hcc
        have hdg := h1 c (by simp)
        rw [hcc] at hdg
        exact absurd hdg (by decide)
      have hcp : ¬ c = '+' := by
        intro hcc
        have hdg := h1 c (by simp)
        rw [hcc] at hdg
        exact absurd hdg (by decide)
      have hform : decChars false (c :: cs) ds2 =
          c :: (cs ++ (if ds2 = [] then [] else '.' :: ds2)) := by
        simp [decChars]
      unfold pyFloatList
      rw [htrim, hform]
      dsimp only
      rw [if_neg hcm, if_neg hcp]
      simpa [List.cons_append] using key
    | nil =>
      subst hds1
      cases hds2 : ds2 with
      | nil => exact absurd hds2 (fun h => (h3 h) rfl)
      | cons d ds2x =>
        subst hds2
        have hform : decChars false [] (d :: ds2x) = '.' :: (d :: ds2x) := by
          simp [decChars]
        unfold pyFloatList
        rw [htrim, hform]
        exact key

theorem parse_unit_decChars_aux (neg : Bool) (ds1 ds2 rest : List Char)
    (h1 : ∀ c ∈ ds1, c.isDigit = true) (h2 : ∀ c ∈ ds2, c.isDigit = true)
    (h3 : ds2 = [] → ds1 ≠ [])
    (hne : rest ≠ [])
    (hhead : ∀ c, rest.head? = some c → c.isDigit = false ∧ ¬ c = '.')
    (hlast : ∀ c, rest.getLast? = some c → ¬ c = '%')
    (htw : rest.takeWhile isLowerAZ = rest) :
    parse_unit ⟨decChars neg ds1 ds2 ++ rest⟩ =
      some ((pyTrunc (decimalVal neg ds1 ds2 * chars_per_unit rest) : ℤ) : ℚ) := by
  have hmn := matchNumber_decChars neg ds1 ds2 rest h1 h2 h3 hhead
  have hgl : (decChars neg ds1 ds2 ++ rest).getLast? = rest.getLast? :=
    List.getLast?_append_of_ne_nil _ hne
  cases hglr : rest.getLast? with
  | none => exact absurd (List.getLast?_eq_none_iff.mp hglr) hne
  | some d =>
    have hd := hlast d hglr
    unfold parse_unit
    dsimp only
    rw [if_neg (by simp [hne]), hgl, hglr,
      if_neg (by simp only [Option.some.injEq]; exact hd), hmn]
    dsimp only
    rw [htw]

theorem parse_unit_percent_decChars (neg : Bool) (ds1 ds2 : List Char)
    (h1 : ∀ c ∈ ds1, c.isDigit = true) (h2 : ∀ c ∈ ds2, c.isDigit = true)
    (h3 : ds2 = [] → ds1 ≠ []) :
    parse_unit ⟨decChars neg ds1 ds2 ++ ['%']⟩ =
      some (decimalVal neg ds1 ds2 / 100) := by
  have hfl := pyFloatList_decChars neg ds1 ds2 h1 h2 h3
  have hgl : (decChars neg ds1 ds2 ++ ['%']).getLast? = some '%' := by
    rw [List.getLast?_append_of_ne_nil _ (by simp)]
    rfl
  have hdl : (decChars neg ds1 ds2 ++ ['%']).dropLast = decChars neg ds1 ds2 :=
    List.dropLast_concat ..
  unfold parse_unit
  dsimp only
  rw [if_neg (by simp), hgl, if_pos rfl, hdl, hfl]
  rfl

/-- C8 (amended): for a decimal number written as an optional sign, integer
digits and an optional fractional part, followed by a unit in
{in, pt, px, cm, mm, em, rem}, `parse_unit` returns the number times the
fixed per-unit multiplier (in=12.3, pt=12.3/72, px=12.3/96, cm=4.84,
mm=0.484, em/rem=1.6) TRUNCATED to an integer by Python `int()`; for the
number followed by `%` it returns the exact fraction value/100. The
spec's claim that the scaled value itself is returned fails whenever the
product is not an integer. -/
theorem parse_unit_conversion (neg : Bool) (ds1 ds2 : List Char)
    (h1 : ∀ c ∈ ds1, c.isDigit = true) (h2 : ∀ c ∈ ds2, c.isDigit = true)
    (h3 : ds2 = [] → ds1 ≠ []) :
    (∀ u ∈ (["in", "pt", "px", "cm", "mm", "em", "rem"] : List String),
      parse_unit ⟨decChars neg ds1 ds2 ++ u.data⟩ =
        some ((pyTrunc (decimalVal neg ds1 ds2 * chars_per_unit u.data) : ℤ) : ℚ)) ∧
    parse_unit ⟨decChars neg ds1 ds2 ++ ['%']⟩ =
      some (decimalVal neg ds1 ds2 / 100) := by
  refine ⟨?_, parse_unit_percent_decChars neg ds1 ds2 h1 h2 h3⟩
  intro u hu
  fin_cases hu
  · exact parse_unit_decChars_aux neg ds1 ds2 ['i', 'n'] h1 h2 h3 (by decide)
      (fun c hc => by injection (show some 'i' = some c from hc) with h; subst h; decide)
      (fun c hc => by injection (show some 'n' = some c from hc) with h; subst h; decide)
      (by decide)
  · exact parse_unit_decChars_aux neg ds1 ds2 ['p', 't'] h1 h2 h3 (by decide)
      (fun c hc => by injection (show some 'p' = some c from hc) with h; subst h; decide)
      (fun c hc => by injection (show some 't' = some c from hc) with h; subst h; decide)
      (by decide)
  · exact parse_unit_decChars_aux neg ds1 ds2 ['p', 'x'] h1 h2 h3 (by decide)
      (fun c hc => by injection (show some 'p' = some c from hc) with h; subst h; decide)
      (fun c hc => by injection (show some 'x' = some c from hc) with h; subst h; decide)
      (by decide)
  · exact parse_unit_decChars_aux neg ds1 ds2 ['c', 'm'] h1 h2 h3 (by decide)
      (fun c hc => by injection (show some 'c' = some c from hc) with h; subst h; decide)
      (fun c hc => by injection (show some 'm' = some c from hc) with h; subst h; decide)
      (by decide)
  · exact parse_unit_decChars_aux neg ds1 ds2 ['m', 'm'] h1 h2 h3 (by decide)
      (fun c hc => by injection (show some 'm' = some c from hc) with h; subst h; decide)
      (fun c hc => by injection (show some 'm' = some c from hc) with h; subst h; decide)
      (by decide)
  · exact parse_unit_decChars_aux neg ds1 ds2 ['e', 'm'] h1 h2 h3 (by decide)
      (fun c hc => by injection (show some 'e' = some c from hc) with h; subst h; decide)
      (fun c hc => by injection (show some 'm' = some c from hc) with h; subst h; decide)
      (by decide)
  · exact parse_unit_decChars_aux neg ds1 ds2 ['r', 'e', 'm'] h1 h2 h3 (by decide)
      (fun c hc => by injection (show some 'r' = some c from hc) with h; subst h; decide)
      (fun c hc => by injection (show some 'm' = some c from hc) with h; subst h; decide)
      (by decide)

/-- C8 counterexample: `parse_unit "2in"` returns 24, not the scaled value
2 x 12.3 = 24.6 the claim asserts (the source applies Python `int()`,
truncating toward zero). -/
theorem parse_unit_truncation_counterexample :
    parse_unit "2in" = some 24 ∧ (24 : ℚ) ≠ 2 * (123/10) := by
  constructor
  · have h : parse_unit "2in" =
        some ((pyTrunc (decimalVal false ['2'] [] * chars_per_unit ['i', 'n']) : ℤ) : ℚ) := rfl
    rw [h]
    rw [show decimalVal false ['2'] [] = Rat.divInt 2 1 from rfl]
    rw [show chars_per_unit ['i', 'n'] = 123/10 from rfl]
    norm_num [pyTrunc, Rat.divInt_eq_div]
  · norm_num

/-- Witness for C8 at a concrete input: the number 5 scales by em=1.6 to
exactly 8 characters and the percent form yields 5/100 = 1/20. -/
theorem parse_unit_conversion_witness :
    (∀ c ∈ (['5'] : List Char), c.isDigit = true) ∧
    parse_unit ⟨decChars false ['5'] [] ++ "em".data⟩ = some 8 ∧
    parse_unit ⟨decChars false ['5'] [] ++ ['%']⟩ = some (1/20) := by
  have h := parse_unit_conversion false ['5'] [] (by decide) (by decide) (by decide)
  refine ⟨by decide, ?_, ?_⟩
  · have h1 := h.1 "em" (by simp)
    rw [h1]
    rw [show decimalVal false ['5'] [] = Rat.divInt 5 1 from rfl]
    rw [show chars_per_unit "em".data = 8/5 from rfl]
    norm_num [pyTrunc, Rat.divInt_eq_div]
  · rw [h.2]
    rw [show decimalVal false ['5'] [] = Rat.divInt 5 1 from rfl]
    norm_num [Rat.divInt_eq_div]
